import Mathlib

/-!
Verification of the buffer, queue and scheduling layer of
`apache_beam/runners/portability/fn_api_runner/execution.py`.

Shallow embedding conventions:
* An encoded byte record is modelled by the list of the decoded sub-elements
  it contains (`List α`): `create_InputStream`/`decode_from_stream` pulls the
  elements off one at a time, and `encode_to_stream` appends one element to an
  output stream, so a stream/record is exactly a list of elements and the
  coder round-trip is the identity on that list.
* Python `raise RuntimeError(...)` is modelled with `Except String`;
  methods that mutate object state before raising return the mutated state
  alongside the `Except` result.
* Python truthiness of the `Optional[List]` field `_grouped_output`
  (`if self._grouped_output:`) is `pyTruthy`: `None` and `[]` are falsy,
  a non-empty list is truthy.
-/

namespace BeamExec

/-- Python truthiness of an `Optional[List]` value: `None` and the empty
list are falsy, any non-empty list is truthy. -/
def pyTruthy {β : Type} (o : Option (List β)) : Bool :=
  match o with
  | none => false
  | some l => !l.isEmpty

theorem pyTruthy_some_iff {β : Type} (l : List β) :
    pyTruthy (some l) = true ↔ l ≠ [] := by
  cases l <;> simp [pyTruthy]

/-- Traversal of a list by a fallible function, stopping (as a Python loop
raising an exception does) at the first failing element. -/
def mapExcept {ε α β : Type} (f : α → Except ε β) : List α → Except ε (List β)
  | [] => .ok []
  | a :: as =>
    match f a with
    | .error e => .error e
    | .ok b =>
      match mapExcept f as with
      | .error e => .error e
      | .ok bs => .ok (b :: bs)

/-- Helper for `pyStride`: take the next element once the countdown `c`
reaches zero, then restart the countdown at `n - 1`. -/
def pyStrideAux {α : Type} (n : Nat) : List α → Nat → List α
  | [], _ => []
  | a :: as, 0 => a :: pyStrideAux n as (n - 1)
  | _ :: as, c + 1 => pyStrideAux n as c

/-- Python extended slice `l[0::n]`: every `n`-th element of `l`, starting
with the head.  `l[k::n]` is `pyStride n (l.drop k)`. -/
def pyStride {α : Type} (n : Nat) (l : List α) : List α :=
  pyStrideAux n l 0

theorem pyStrideAux_eq_drop {α : Type} (n : Nat) :
    ∀ (as : List α) (c : Nat), pyStrideAux n as c = pyStride n (as.drop c)
  | [], c => by simp [pyStrideAux, pyStride]
  | a :: as, 0 => by simp [pyStride]
  | a :: as, c + 1 => by
    simp only [pyStrideAux, List.drop_succ_cons]
    exact pyStrideAux_eq_drop n as c

/-- Unfolding equation of `pyStride` on a non-empty list. -/
theorem pyStride_cons {α : Type} (n : Nat) (a : α) (as : List α) :
    pyStride n (a :: as) = a :: pyStride n (as.drop (n - 1)) := by
  show pyStrideAux n (a :: as) 0 = a :: pyStride n (as.drop (n - 1))
  simp only [pyStrideAux]
  rw [pyStrideAux_eq_drop]

/-- `ListBuffer` state (`execution.py` lines 125–188): `inputs` is
`self._inputs` (each record modelled as its list of decoded sub-elements),
`grouped_output` is `self._grouped_output`, `cleared` is `self.cleared`. -/
structure ListBuffer (α : Type) where
  inputs : List (List α)
  grouped_output : Option (List (List (List α)))
  cleared : Bool
  deriving DecidableEq, Repr

namespace ListBuffer

/-- `ListBuffer.__init__`: fresh empty buffer. -/
def new {α : Type} : ListBuffer α := ⟨[], none, false⟩

/-- `ListBuffer.append`. -/
def append {α : Type} (b : ListBuffer α) (element : List α) :
    Except String (ListBuffer α) :=
  if b.cleared then .error "Trying to append to a cleared ListBuffer."
  else if pyTruthy b.grouped_output then .error "ListBuffer append after read."
  else .ok { b with inputs := b.inputs ++ [element] }

/-- `ListBuffer.extend` (from another `ListBuffer`; the `isinstance` assert
always holds for that source kind). -/
def extend {α : Type} (b extra : ListBuffer α) : Except String (ListBuffer α) :=
  if b.cleared then .error "Trying to append to a cleared ListBuffer."
  else if pyTruthy b.grouped_output then .error "ListBuffer append after read."
  else .ok { b with inputs := b.inputs ++ extra.inputs }

/-- `ListBuffer.__iter__`. -/
def iterate {α : Type} (b : ListBuffer α) : Except String (List (List α)) :=
  if b.cleared then .error "Trying to iterate through a cleared ListBuffer."
  else .ok b.inputs

/-- `ListBuffer.partition` (lines 153–172).  The decoder argument `dec`
models the per-record `decode_from_stream` loop of the redistribute path:
on success it yields the record's decoded sub-elements (the identity
`fun r => .ok r` under the conventions above), and a raising coder is
modelled by `.error`.  The redistribute path deals the decoded sub-elements
of all records round-robin (a single running index `idx` across records)
into `n` output streams and memoizes one single-record shard per stream;
memoization (`self._grouped_output = ...`) happens only after the whole
loop has succeeded.  Returns the post-call buffer state and the result. -/
def partition {α : Type} (dec : List α → Except String (List α))
    (b : ListBuffer α) (n : Nat) :
    ListBuffer α × Except String (List (List (List α))) :=
  if b.cleared then (b, .error "Trying to partition a cleared ListBuffer.")
  else if n ≤ b.inputs.length ∨ b.inputs.length = 0 then
    (b, .ok ((List.range n).map (fun k => pyStride n (b.inputs.drop k))))
  else if pyTruthy b.grouped_output then (b, .ok (b.grouped_output.getD []))
  else
    match mapExcept dec b.inputs with
    | .error e => (b, .error e)
    | .ok decoded =>
      let out := (List.range n).map
        (fun k => [pyStride n (decoded.flatten.drop k)])
      ({ b with grouped_output := some out }, .ok out)

/-- `ListBuffer.clear`. -/
def clear {α : Type} (b : ListBuffer α) : ListBuffer α :=
  { b with cleared := true, inputs := [], grouped_output := none }

/-- `ListBuffer.reset`: only valid on a cleared buffer. -/
def reset {α : Type} (b : ListBuffer α) : Except String (ListBuffer α) :=
  if !b.cleared then .error "Trying to reset a non-cleared ListBuffer."
  else .ok { b with cleared := false }

/-- Appending a sequence of records one by one (repeated `ListBuffer.append`
calls), threading the possible usage errors. -/
def appendAll {α : Type} (b : ListBuffer α) : List (List α) →
    Except String (ListBuffer α)
  | [] => .ok b
  | r :: rs =>
    match b.append r with
    | .ok b' => b'.appendAll rs
    | .error e => .error e

end ListBuffer

/-! ### Round-robin slicing preserves the multiset of elements -/

theorem pyStride_nil {α : Type} (n : Nat) : pyStride n ([] : List α) = [] := rfl

theorem pyStride_drop_step {α : Type} (n : Nat) (hn : 1 ≤ n) (l : List α)
    (k : Nat) :
    pyStride n (l.drop k) = (l.drop k).take 1 ++ pyStride n ((l.drop n).drop k) := by
  rw [List.drop_drop]
  rcases h : l.drop k with _ | ⟨a, as⟩
  · have hk : l.length ≤ k := List.drop_eq_nil_iff.mp h
    have hnil : l.drop (n + k) = [] := List.drop_eq_nil_iff.mpr (by omega)
    simp [hnil, pyStride_nil]
  · have has : as = l.drop (k + 1) := by
      have ht := List.tail_drop l k
      rw [h] at ht
      simp only [List.tail_cons] at ht
      exact ht
    have hdrop : as.drop (n - 1) = l.drop (n + k) := by
      rw [has, List.drop_drop]
      congr 1
      omega
    rw [pyStride_cons, hdrop]
    rfl

theorem flatMap_append_multiset {γ α : Type} (ks : List γ) (f g : γ → List α) :
    ((ks.flatMap fun k => f k ++ g k : List α) : Multiset α)
      = ((ks.flatMap f : List α) : Multiset α)
        + ((ks.flatMap g : List α) : Multiset α) := by
  induction ks with
  | nil => simp
  | cons a t ih =>
    simp only [List.flatMap_cons, ← Multiset.coe_add] at *
    rw [ih]
    abel

theorem flatMap_take_one {α : Type} (n : Nat) (l : List α) :
    ((List.range n).flatMap fun k => (l.drop k).take 1) = l.take n := by
  induction n with
  | zero => simp
  | succ m ih =>
    rw [List.range_succ, List.flatMap_append, ih]
    simp only [List.flatMap_cons, List.flatMap_nil, List.append_nil]
    exact (List.take_add l m 1).symm

/-- Dealing the elements of `l` round-robin over `n` buckets (bucket `k`
receives `l[k::n]`) and concatenating all buckets preserves the multiset of
elements of `l`. -/
theorem pyStride_flatMap_multiset {α : Type} (n : Nat) (hn : 1 ≤ n) :
    ∀ l : List α,
      (((List.range n).flatMap fun k => pyStride n (l.drop k) : List α) :
          Multiset α) = (l : Multiset α)
  | [] => by
    have h : ((List.range n).flatMap fun k => pyStride n (([] : List α).drop k))
        = ([] : List α) := by
      rw [List.flatMap_eq_nil_iff]
      intro k _
      simp [pyStride_nil]
    rw [h]
  | a :: as => by
    have ih := pyStride_flatMap_multiset n hn ((a :: as).drop n)
    have hstep :
        ((List.range n).flatMap fun k => pyStride n ((a :: as).drop k))
          = ((List.range n).flatMap fun k =>
              ((a :: as).drop k).take 1
                ++ pyStride n (((a :: as).drop n).drop k)) := by
      congr 1
      funext k
      exact pyStride_drop_step n hn (a :: as) k
    rw [hstep]
    rw [flatMap_append_multiset, flatMap_take_one, ih]
    rw [Multiset.coe_add, List.take_append_drop]
termination_by l => l.length
decreasing_by simp only [List.length_drop, List.length_cons]; omega

/-! ### Helper lemmas about the `ListBuffer` operations -/

theorem mapExcept_pure {ε α : Type} :
    ∀ l : List α, mapExcept (fun r => (.ok r : Except ε α)) l = .ok l
  | [] => rfl
  | a :: as => by simp [mapExcept, mapExcept_pure as]

theorem flatten_map_singleton {γ α : Type} (r : List γ) (g : γ → List α) :
    (r.map fun k => [g k]).flatten = r.map g := by
  induction r with
  | nil => rfl
  | cons a t ih => simp [ih]

theorem ListBuffer.appendAll_ok {α : Type} :
    ∀ (rs : List (List α)) (xs : List (List α)),
      ListBuffer.appendAll ⟨xs, none, false⟩ rs = .ok ⟨xs ++ rs, none, false⟩
  | [], xs => by simp [ListBuffer.appendAll]
  | r :: rs, xs => by
    simp only [ListBuffer.appendAll, ListBuffer.append, pyTruthy]
    simpa using ListBuffer.appendAll_ok rs (xs ++ [r])

/-- C1: for every `ListBuffer` built by appending the records `rs` and every
partition count `n ≥ 1`, `partition n` succeeds; on the round-robin path
(`n ≤ |rs|` or no records) the concatenation of all shards reproduces the
multiset of appended records, and on the redistribution path
(`0 < |rs| < n`) the concatenation of the decoded sub-elements of all shards
reproduces the multiset of decoded sub-elements of the appended records
(none lost, none duplicated). -/
theorem listBuffer_partition_preserves_multiset {α : Type}
    (rs : List (List α)) (n : Nat) (hn : 1 ≤ n) (b : ListBuffer α)
    (hb : ListBuffer.appendAll ListBuffer.new rs = .ok b) :
    ∃ out, (ListBuffer.partition (fun r => .ok r) b n).2 = .ok out ∧
      ((n ≤ rs.length ∨ rs = []) →
        ((out.flatten : List (List α)) : Multiset (List α))
          = (rs : Multiset (List α))) ∧
      (rs.length < n → rs ≠ [] →
        ((out.flatten.flatten : List α) : Multiset α)
          = ((rs.flatten : List α) : Multiset α)) := by
  have hb' : b = ⟨rs, none, false⟩ := by
    have h := ListBuffer.appendAll_ok rs ([] : List (List α))
    rw [ListBuffer.new] at hb
    rw [h] at hb
    simpa using hb.symm
  subst hb'
  by_cases hfast : n ≤ rs.length ∨ rs.length = 0
  · refine ⟨(List.range n).map (fun k => pyStride n (rs.drop k)), ?_, ?_, ?_⟩
    · simp only [ListBuffer.partition]
      norm_num
      rw [if_pos hfast]
    · intro _
      rw [← List.flatMap_def]
      exact pyStride_flatMap_multiset n hn rs
    · intro hlt hne
      rcases hfast with h | h
      · omega
      · exact absurd (List.length_eq_zero.mp h) hne
  · refine ⟨(List.range n).map (fun k => [pyStride n (rs.flatten.drop k)]),
      ?_, ?_, ?_⟩
    · simp only [ListBuffer.partition, pyTruthy, mapExcept_pure]
      norm_num
      rw [if_neg hfast]
    · intro hcase
      rcases hcase with h | h
      · exact absurd (Or.inl h) hfast
      · exact absurd (Or.inr (by simp [h])) hfast
    · intro _ _
      rw [flatten_map_singleton, ← List.flatMap_def]
      exact pyStride_flatMap_multiset n hn rs.flatten

/-- Witness for C1 at a concrete input: two records of sub-elements,
partitioned into two shards. -/
theorem listBuffer_partition_preserves_multiset_witness :
    ∃ out,
      (ListBuffer.partition (fun r => .ok r)
          (ListBuffer.mk [[1, 2], [3]] none false) 2).2 = .ok out ∧
      ((2 ≤ ([[1, 2], [3]] : List (List Nat)).length ∨
          ([[1, 2], [3]] : List (List Nat)) = []) →
        ((out.flatten : List (List Nat)) : Multiset (List Nat))
          = (([[1, 2], [3]] : List (List Nat)) : Multiset (List Nat))) ∧
      (([[1, 2], [3]] : List (List Nat)).length < 2 →
          ([[1, 2], [3]] : List (List Nat)) ≠ [] →
        ((out.flatten.flatten : List Nat) : Multiset Nat)
          = ((([[1, 2], [3]] : List (List Nat)).flatten : List Nat) :
              Multiset Nat)) :=
  listBuffer_partition_preserves_multiset [[1, 2], [3]] 2 (by decide)
    (ListBuffer.mk [[1, 2], [3]] none false) (by rfl)

/-- C8: clearing a `ListBuffer` makes every operation except `reset` fail
with a usage error; `reset` on a non-cleared buffer fails; `clear` followed
by `reset` yields exactly a fresh empty buffer, on which `append` then
succeeds. -/
theorem listBuffer_clear_reset_contract {α : Type} (b extra : ListBuffer α)
    (r : List α) (dec : List α → Except String (List α)) (n : Nat) :
    b.clear.append r = .error "Trying to append to a cleared ListBuffer." ∧
    b.clear.extend extra
      = .error "Trying to append to a cleared ListBuffer." ∧
    b.clear.iterate
      = .error "Trying to iterate through a cleared ListBuffer." ∧
    ListBuffer.partition dec b.clear n
      = (b.clear, .error "Trying to partition a cleared ListBuffer.") ∧
    (b.cleared = false →
      b.reset = .error "Trying to reset a non-cleared ListBuffer.") ∧
    b.clear.reset = .ok ListBuffer.new ∧
    ListBuffer.new.append r = .ok (ListBuffer.mk [r] none false) := by
  refine ⟨?_, ?_, ?_, ?_, ?_, ?_, ?_⟩
  · simp [ListBuffer.clear, ListBuffer.append]
  · simp [ListBuffer.clear, ListBuffer.extend]
  · simp [ListBuffer.clear, ListBuffer.iterate]
  · simp [ListBuffer.clear, ListBuffer.partition]
  · intro h
    simp [ListBuffer.reset, h]
  · simp [ListBuffer.clear, ListBuffer.reset, ListBuffer.new]
  · simp [ListBuffer.new, ListBuffer.append, pyTruthy]

/-- Witness for C8 at a concrete input. -/
theorem listBuffer_clear_reset_contract_witness :
    (ListBuffer.new (α := Nat)).clear.append [7]
        = .error "Trying to append to a cleared ListBuffer." ∧
    (ListBuffer.new (α := Nat)).clear.extend ListBuffer.new
        = .error "Trying to append to a cleared ListBuffer." ∧
    (ListBuffer.new (α := Nat)).clear.iterate
        = .error "Trying to iterate through a cleared ListBuffer." ∧
    ListBuffer.partition (fun r => .ok r) (ListBuffer.new (α := Nat)).clear 3
        = ((ListBuffer.new (α := Nat)).clear,
            .error "Trying to partition a cleared ListBuffer.") ∧
    ((ListBuffer.new (α := Nat)).cleared = false →
      (ListBuffer.new (α := Nat)).reset
        = .error "Trying to reset a non-cleared ListBuffer.") ∧
    (ListBuffer.new (α := Nat)).clear.reset = .ok ListBuffer.new ∧
    (ListBuffer.new (α := Nat)).append [7]
        = .ok (ListBuffer.mk [[7]] none false) :=
  listBuffer_clear_reset_contract ListBuffer.new ListBuffer.new [7]
    (fun r => .ok r) 3

/-! ### GroupingBuffer (`execution.py` lines 191–291)

`GroupingBuffer` stores a key→list-of-values table (`self._table`, an
insertion-ordered `defaultdict`, modelled as an association list with unique
keys in insertion order) and a memoized partition output
(`self._grouped_output`).  Type parameters: `K` is the type of encoded keys
(the table is keyed by `key_coder_impl.encode(key)`), `V` the type of stored
values (`value` or `windowed_value.with_value(value)` depending on the
windowing), and `β` the unit of encoded output bytes, a byte record being
`List β` as for `ListBuffer`. -/

structure GroupingBuffer (K V β : Type) where
  table : List (K × List V)
  grouped_output : Option (List (List (List β)))
  deriving DecidableEq, Repr

/-- `self._table[key].append/extend(values)` on an insertion-ordered
`defaultdict(list)`: append to the existing entry in place, or insert a new
entry at the end. -/
def tableAppend {K V : Type} [DecidableEq K] :
    List (K × List V) → K → List V → List (K × List V)
  | [], k, vs => [(k, vs)]
  | (k', vs') :: rest, k, vs =>
    if k' = k then (k', vs' ++ vs) :: rest
    else (k', vs') :: tableAppend rest k vs

/-- The two buffer kinds `GroupingBuffer.extend` can receive. -/
inductive BufferArg (α K V β : Type) where
  | listBuf (b : ListBuffer α)
  | groupBuf (b : GroupingBuffer K V β)

namespace GroupingBuffer

/-- `GroupingBuffer.append` (lines 211–225): fails on a buffer already read
(`if self._grouped_output:`), otherwise decodes `elements_data` into a
sequence of (encoded key, stored value) pairs — the decoding loop over the
input stream is modelled by `decRec` — and appends each value to its key's
table entry. -/
def append {K V β ρ : Type} [DecidableEq K] (decRec : ρ → List (K × V))
    (b : GroupingBuffer K V β) (elements_data : ρ) :
    Except String (GroupingBuffer K V β) :=
  if pyTruthy b.grouped_output then .error "Grouping table append after read."
  else
    let t := (decRec elements_data).foldl
      (fun t kv => tableAppend t kv.1 [kv.2]) b.table
    .ok { b with table := t }

/-- `GroupingBuffer.extend` (lines 227–235): a `ListBuffer` source is
silently ignored (migration workaround), a `GroupingBuffer` source has its
table merged in.  Note the source performs no cleared/read check here. -/
def extend {α K V β : Type} [DecidableEq K] (b : GroupingBuffer K V β)
    (input_buffer : BufferArg α K V β) : Except String (GroupingBuffer K V β) :=
  match input_buffer with
  | .listBuf _ => .ok b
  | .groupBuf g =>
    let t := g.table.foldl (fun t kv => tableAppend t kv.1 kv.2) b.table
    .ok { b with table := t }

/-- `GroupingBuffer.partition` (lines 237–274).  `encEntry` models the
per-table-entry work of the loop: decoding the stored key
(`key_coder_impl.decode`), applying the default-window wrapping or the
trigger driver (`windowed_key_values`), and encoding each resulting
windowed key-value with the post-grouped coder; on success it yields the
byte chunk the entry contributes to its output stream, and a raising
coder/trigger is modelled by `.error`.  Entries are dealt round-robin over
the `n` output streams by enumeration index; each shard is the single
record accumulated by its stream.  Faithful to the source, the memo field
is assigned `[[] for _ in range(n)]` *before* the loop runs, so a failing
loop leaves that assignment behind; on success the shards are installed and
the table is cleared. -/
def partition {K V β : Type} (encEntry : K → List V → Except String (List β))
    (b : GroupingBuffer K V β) (n : Nat) :
    GroupingBuffer K V β × Except String (List (List (List β))) :=
  if pyTruthy b.grouped_output then (b, .ok (b.grouped_output.getD []))
  else
    match mapExcept (fun kv => encEntry kv.1 kv.2) b.table with
    | .error e =>
      ({ b with grouped_output := some (List.replicate n []) }, .error e)
    | .ok chunks =>
      let out := (List.range n).map
        (fun j => [(pyStride n (chunks.drop j)).flatten])
      ({ table := [], grouped_output := some out }, .ok out)

/-- Class attribute `cleared = False` (line 285). -/
def cleared {K V β : Type} (_ : GroupingBuffer K V β) : Bool := false

/-- `GroupingBuffer.clear` (lines 287–288): `pass`. -/
def clear {K V β : Type} (b : GroupingBuffer K V β) : GroupingBuffer K V β := b

/-- `GroupingBuffer.reset` (lines 290–291): `pass`. -/
def reset {K V β : Type} (b : GroupingBuffer K V β) : GroupingBuffer K V β := b

/-- After a successful `partition` call, the result state carries a truthy
memo whose contents are exactly the returned shards (for `n ≥ 1`). -/
theorem partition_ok_memo {K V β : Type}
    (encEntry : K → List V → Except String (List β))
    (b b1 : GroupingBuffer K V β) (n : Nat) (hn : 1 ≤ n)
    (out : List (List (List β)))
    (h : partition encEntry b n = (b1, .ok out)) :
    pyTruthy b1.grouped_output = true ∧ b1.grouped_output = some out := by
  unfold partition at h
  by_cases htr : pyTruthy b.grouped_output = true
  · rw [if_pos htr] at h
    have hb : b = b1 := congrArg Prod.fst h
    have hout : b.grouped_output.getD [] = out := by
      have h2 := congrArg Prod.snd h
      simpa using h2
    subst hb
    refine ⟨htr, ?_⟩
    rcases hg : b.grouped_output with _ | l
    · rw [hg] at htr
      simp [pyTruthy] at htr
    · rw [hg] at hout
      simpa using hout
  · rw [if_neg htr] at h
    rcases hm : mapExcept (fun kv => encEntry kv.1 kv.2) b.table with e | chunks
    · rw [hm] at h
      exact absurd (congrArg Prod.snd h) (by simp)
    · rw [hm] at h
      simp only [Prod.mk.injEq, Except.ok.injEq] at h
      obtain ⟨hb, hout⟩ := h
      rw [← hb, ← hout]
      refine ⟨(pyTruthy_some_iff _).mpr ?_, rfl⟩
      intro hnil
      have hlen := congrArg List.length hnil
      simp at hlen
      omega

end GroupingBuffer

/-- C3: a second `partition` call on a `GroupingBuffer` returns a result
identical to the first successful call — the shards are memoized — and
after a first (non-memo-hit) partition the underlying key table has been
cleared. -/
theorem groupingBuffer_partition_idempotent {K V β : Type}
    (encEntry : K → List V → Except String (List β))
    (b b1 : GroupingBuffer K V β) (n : Nat) (hn : 1 ≤ n)
    (out : List (List (List β)))
    (h : GroupingBuffer.partition encEntry b n = (b1, .ok out)) :
    GroupingBuffer.partition encEntry b1 n = (b1, .ok out) ∧
    (pyTruthy b.grouped_output = false → b1.table = []) := by
  obtain ⟨htr, hmemo⟩ :=
    GroupingBuffer.partition_ok_memo encEntry b b1 n hn out h
  constructor
  · unfold GroupingBuffer.partition
    rw [if_pos htr, hmemo]
    rfl
  · intro hfalse
    unfold GroupingBuffer.partition at h
    rw [if_neg (by simp [hfalse])] at h
    rcases hm : mapExcept (fun kv => encEntry kv.1 kv.2) b.table with e | chunks
    · rw [hm] at h
      simp at h
    · rw [hm] at h
      simp only [Prod.mk.injEq] at h
      rw [← h.1]

/-- Witness for C3 at a concrete input. -/
theorem groupingBuffer_partition_idempotent_witness :
    GroupingBuffer.partition (fun (_ : Nat) (vs : List Nat) => .ok vs)
        (GroupingBuffer.mk [] (some [[[1]], [[]]]) : GroupingBuffer Nat Nat Nat)
        2
      = (GroupingBuffer.mk [] (some [[[1]], [[]]]), .ok [[[1]], [[]]]) ∧
    (pyTruthy (GroupingBuffer.mk [(0, [1])] none :
          GroupingBuffer Nat Nat Nat).grouped_output = false →
      (GroupingBuffer.mk [] (some [[[1]], [[]]]) :
          GroupingBuffer Nat Nat Nat).table = []) :=
  groupingBuffer_partition_idempotent (fun _ vs => .ok vs)
    (GroupingBuffer.mk [(0, [1])] none)
    (GroupingBuffer.mk [] (some [[[1]], [[]]])) 2 (by decide) [[[1]], [[]]]
    (by rfl)

/-- C4 counterexample: on the concrete buffer state produced by a first
`partition` call, a subsequent `extend` from a `GroupingBuffer` source does
not fail with a usage error — it succeeds and merges the source's table —
so the claim that any `extend` after `partition` fails is false
(`GroupingBuffer.extend` performs no after-read check). -/
theorem groupingBuffer_extend_after_partition_succeeds :
    (GroupingBuffer.partition (fun (_ : Nat) (vs : List Nat) => .ok vs)
        (GroupingBuffer.mk [(0, [1])] none : GroupingBuffer Nat Nat Nat)
        2).1.extend
      (BufferArg.groupBuf (GroupingBuffer.mk [(5, [7])] none) :
        BufferArg Nat Nat Nat Nat)
      = .ok (GroupingBuffer.mk [(5, [7])] (some [[[1]], [[]]])) := rfl

/-- C4 (amended): after a first successful `partition`, `append` fails with
the usage error, but `extend` does not fail: a `ListBuffer`-kind source is
silently ignored and a `GroupingBuffer` source's table is merged into the
cleared key table; neither affects the memoized partition output, which a
further `partition` call still returns. -/
theorem groupingBuffer_append_fails_extend_merges {α K V β ρ : Type}
    [DecidableEq K]
    (encEntry : K → List V → Except String (List β))
    (b b1 : GroupingBuffer K V β) (n : Nat) (hn : 1 ≤ n)
    (out : List (List (List β)))
    (h : GroupingBuffer.partition encEntry b n = (b1, .ok out))
    (decRec : ρ → List (K × V)) (d : ρ) (lb : ListBuffer α)
    (g : GroupingBuffer K V β) :
    GroupingBuffer.append decRec b1 d
      = .error "Grouping table append after read." ∧
    b1.extend (BufferArg.listBuf lb : BufferArg α K V β) = .ok b1 ∧
    (∃ b2, b1.extend (BufferArg.groupBuf g : BufferArg α K V β) = .ok b2 ∧
      b2.grouped_output = b1.grouped_output ∧
      GroupingBuffer.partition encEntry b2 n = (b2, .ok out)) := by
  obtain ⟨htr, hmemo⟩ :=
    GroupingBuffer.partition_ok_memo encEntry b b1 n hn out h
  refine ⟨?_, rfl, ?_⟩
  · unfold GroupingBuffer.append
    rw [if_pos htr]
  · refine ⟨{ b1 with table := g.table.foldl (fun t kv => tableAppend t kv.1 kv.2) b1.table }, rfl, rfl, ?_⟩
    unfold GroupingBuffer.partition
    have h2 : ({ b1 with table := g.table.foldl (fun t kv => tableAppend t kv.1 kv.2) b1.table } : GroupingBuffer K V β).grouped_output = some out := hmemo
    rw [h2, if_pos (by rw [hmemo] at htr; exact htr)]
    rfl

/-- Witness for the amended C4 at a concrete input. -/
theorem groupingBuffer_append_fails_extend_merges_witness :
    GroupingBuffer.append (fun (_ : Nat) => [((9 : Nat), (9 : Nat))])
        (GroupingBuffer.mk [] (some [[[1]], [[]]]) : GroupingBuffer Nat Nat Nat)
        0
      = .error "Grouping table append after read." ∧
    (GroupingBuffer.mk [] (some [[[1]], [[]]]) :
        GroupingBuffer Nat Nat Nat).extend
      (BufferArg.listBuf ListBuffer.new : BufferArg Nat Nat Nat Nat)
      = .ok (GroupingBuffer.mk [] (some [[[1]], [[]]])) ∧
    (∃ b2, (GroupingBuffer.mk [] (some [[[1]], [[]]]) :
        GroupingBuffer Nat Nat Nat).extend
      (BufferArg.groupBuf (GroupingBuffer.mk [(5, [7])] none) :
        BufferArg Nat Nat Nat Nat) = .ok b2 ∧
      b2.grouped_output = (GroupingBuffer.mk [] (some [[[1]], [[]]]) :
        GroupingBuffer Nat Nat Nat).grouped_output ∧
      GroupingBuffer.partition (fun (_ : Nat) (vs : List Nat) => .ok vs) b2 2
        = (b2, .ok [[[1]], [[]]])) :=
  groupingBuffer_append_fails_extend_merges (fun _ vs => .ok vs)
    (GroupingBuffer.mk [(0, [1])] none)
    (GroupingBuffer.mk [] (some [[[1]], [[]]])) 2 (by decide) [[[1]], [[]]]
    (by rfl) (fun _ => [(9, 9)]) 0 ListBuffer.new
    (GroupingBuffer.mk [(5, [7])] none)

/-- C10: `GroupingBuffer.clear` and `GroupingBuffer.reset` do nothing, the
`cleared` flag is always `false`, and `append`, `extend` and `partition`
after `clear` behave exactly as they would without it. -/
theorem groupingBuffer_clear_reset_noop {α K V β ρ : Type} [DecidableEq K]
    (b : GroupingBuffer K V β) (decRec : ρ → List (K × V)) (d : ρ)
    (src : BufferArg α K V β)
    (encEntry : K → List V → Except String (List β)) (n : Nat) :
    b.clear = b ∧ b.reset = b ∧ b.cleared = false ∧
    GroupingBuffer.append decRec b.clear d
      = GroupingBuffer.append decRec b d ∧
    b.clear.extend src = b.extend src ∧
    GroupingBuffer.partition encEntry b.clear n
      = GroupingBuffer.partition encEntry b n :=
  ⟨rfl, rfl, rfl, rfl, rfl, rfl⟩

/-- C6 counterexample: a `GroupingBuffer.partition` call that fails midway
(failing entry encoder) leaves the buffer in a different observable state
than before the call: the memo field has already been assigned the empty
`n`-shard list, and a subsequent `partition` call returns those empty
shards as if they were a valid memoized result. -/
theorem groupingBuffer_partition_failure_corrupts :
    GroupingBuffer.partition (fun (_ : Nat) (_ : List Nat) =>
        (.error "boom" : Except String (List Nat)))
      (GroupingBuffer.mk [(0, [1])] none : GroupingBuffer Nat Nat Nat) 2
      = (GroupingBuffer.mk [(0, [1])] (some [[], []]), .error "boom") ∧
    (GroupingBuffer.mk [(0, [1])] (some [[], []]) : GroupingBuffer Nat Nat Nat)
      ≠ GroupingBuffer.mk [(0, [1])] none ∧
    GroupingBuffer.partition (fun (_ : Nat) (vs : List Nat) => .ok vs)
      (GroupingBuffer.mk [(0, [1])] (some [[], []]) :
        GroupingBuffer Nat Nat Nat) 2
      = (GroupingBuffer.mk [(0, [1])] (some [[], []]), .ok [[], []]) :=
  ⟨rfl, by decide, rfl⟩

/-- C6 (amended): a failed `partition` never corrupts a `ListBuffer` — its
observable state is exactly as before the call, since the memo is assigned
only after full success — while a failed `GroupingBuffer.partition`
(entered with no memoized output) leaves the key table unchanged but has
already installed an empty `n`-shard memo, because `GroupingBuffer` assigns
the memo field before running the computation. -/
theorem partition_failure_state {α K V β : Type}
    (dec : List α → Except String (List α)) (lb lb1 : ListBuffer α)
    (m : Nat) (e : String)
    (hl : ListBuffer.partition dec lb m = (lb1, .error e))
    (encEntry : K → List V → Except String (List β))
    (gb gb1 : GroupingBuffer K V β) (n : Nat) (e2 : String)
    (hg : GroupingBuffer.partition encEntry gb n = (gb1, .error e2)) :
    lb1 = lb ∧ gb1.table = gb.table ∧
    gb1.grouped_output = some (List.replicate n []) := by
  have hlb : lb1 = lb := by
    unfold ListBuffer.partition at hl
    by_cases hc : lb.cleared = true
    · rw [if_pos hc] at hl
      exact (congrArg Prod.fst hl).symm
    · rw [if_neg hc] at hl
      by_cases hf : m ≤ lb.inputs.length ∨ lb.inputs.length = 0
      · rw [if_pos hf] at hl
        exact absurd (congrArg Prod.snd hl) (by simp)
      · rw [if_neg hf] at hl
        by_cases hmo : pyTruthy lb.grouped_output = true
        · rw [if_pos hmo] at hl
          exact absurd (congrArg Prod.snd hl) (by simp)
        · rw [if_neg hmo] at hl
          rcases hme : mapExcept dec lb.inputs with e3 | decoded
          · rw [hme] at hl
            exact (congrArg Prod.fst hl).symm
          · rw [hme] at hl
            exact absurd (congrArg Prod.snd hl) (by simp)
  have hgb : gb1 = { gb with grouped_output := some (List.replicate n []) } := by
    unfold GroupingBuffer.partition at hg
    by_cases hmo : pyTruthy gb.grouped_output = true
    · rw [if_pos hmo] at hg
      exact absurd (congrArg Prod.snd hg) (by simp)
    · rw [if_neg hmo] at hg
      rcases hme : mapExcept (fun kv => encEntry kv.1 kv.2) gb.table
        with e3 | chunks
      · rw [hme] at hg
        exact (congrArg Prod.fst hg).symm
      · rw [hme] at hg
        exact absurd (congrArg Prod.snd hg) (by simp)
  subst hgb
  exact ⟨hlb, rfl, rfl⟩

/-- Witness for the amended C6 at concrete failing inputs. -/
theorem partition_failure_state_witness :
    (ListBuffer.mk [[1]] none false : ListBuffer Nat)
      = ListBuffer.mk [[1]] none false ∧
    (GroupingBuffer.mk [(0, [1])] (some [[], []]) :
        GroupingBuffer Nat Nat Nat).table
      = (GroupingBuffer.mk [(0, [1])] none : GroupingBuffer Nat Nat Nat).table ∧
    (GroupingBuffer.mk [(0, [1])] (some [[], []]) :
        GroupingBuffer Nat Nat Nat).grouped_output
      = some (List.replicate 2 []) :=
  partition_failure_state (fun _ => .error "x")
    (ListBuffer.mk [[1]] none false) (ListBuffer.mk [[1]] none false) 2 "x"
    (by rfl) (fun _ _ => .error "boom")
    (GroupingBuffer.mk [(0, [1])] none)
    (GroupingBuffer.mk [(0, [1])] (some [[], []])) 2 "boom" (by rfl)

/-! ### Scheduling queue manager (`execution.py` lines 364–444)

Python dictionaries are modelled as insertion-ordered association lists
with unique keys; `dict.get` is `alistGet`. -/

/-- `dict.get`: the value stored under a key, if present. -/
def alistGet {P B : Type} [DecidableEq P] : List (P × B) → P → Option B
  | [], _ => none
  | (k', v) :: rest, k => if k' = k then some v else alistGet rest k

/-- In-place update of the value stored under a key (Python
`d[k].extend(...)`/`d[k] = v` for a present key). -/
def alistSet {P B : Type} [DecidableEq P] : List (P × B) → P → B → List (P × B)
  | [], _, _ => []
  | (k', v') :: rest, k, v =>
    if k' = k then (k', v) :: rest else (k', v') :: alistSet rest k v

/-- The keys of a dictionary, in insertion order. -/
def keysOf {P B : Type} (l : List (P × B)) : List P := l.map Prod.fst

/-- The per-dictionary half of the `enque` merge (lines 401–405 for data,
406–413 for timers): for each incoming key, if the existing dict has a
truthy entry for it, extend that buffer in place with the incoming one
(`ext` models `Buffer.extend`); otherwise adopt the incoming buffer (a new
key is inserted at the end, Python dict insertion order).  Buffers are
Python objects defining neither `__bool__` nor `__len__`, so
`incoming_inputs.data[pcoll]` is always truthy and
`existing_inputs.data.get(pcoll)` is truthy exactly when the key is
present. -/
def dictMerge {P B : Type} [DecidableEq P] (ext : B → B → B)
    (existing incoming : List (P × B)) : List (P × B) :=
  incoming.foldl (fun acc pb =>
    match alistGet acc pb.1 with
    | some old => alistSet acc pb.1 (ext old pb.2)
    | none => acc ++ [pb]) existing

/-- Modelled from the spec: `DataInput` is defined in `translations.py`,
which is not among the sources here (`execution.py` only imports and uses
it).  The spec describes it as a grouped input — "inputs are dictionaries
mapping PCollection name to data buffers" plus per-timer-family buffers
whose fragments the queues merge.  `P` is the PCollection/transform-name
key type, `T` the timer-family key type, `B` the buffer type. -/
structure DataInput (P T B : Type) where
  data : List (P × B)
  timers : List (T × B)
  deriving DecidableEq, Repr

/-- Modelled from the spec: the truthiness of a `DataInput` tested by
`if not incoming_inputs:` in `enque`; per the spec, "Enqueuing an input
with no data is a no-op", so an input is falsy exactly when it carries no
data at all. -/
def DataInput.isEmpty {P T B : Type} (i : DataInput P T B) : Bool :=
  i.data.isEmpty && i.timers.isEmpty

/-- The in-place merge `enque` performs when the key is already present
(lines 400–413). -/
def DataInput.mergeInto {P T B : Type} [DecidableEq P] [DecidableEq T]
    (ext : B → B → B) (existing incoming : DataInput P T B) :
    DataInput P T B :=
  { data := dictMerge ext existing.data incoming.data,
    timers := dictMerge ext existing.timers incoming.timers }

/-- `_ProcessingQueueManager.KeyedQueue`: the deque `self._q`
(`appendleft` at the head, `pop` from the tail, hence FIFO) together with
the dedup index `self._keyed_elements`.  The index always stores the very
pair object that sits in the deque (it is mutated in place on merge), so
the pure model is the deque list alone, with index lookups modelled as
association lookup over it. -/
structure KeyedQueue (κ P T B : Type) where
  q : List (κ × DataInput P T B)
  deriving DecidableEq, Repr

namespace KeyedQueue

/-- `KeyedQueue.enque` (lines 394–416).  `ext` models `Buffer.extend`. -/
def enque {κ P T B : Type} [DecidableEq κ] [DecidableEq P] [DecidableEq T]
    (ext : B → B → B) (Q : KeyedQueue κ P T B)
    (elm : κ × DataInput P T B) : KeyedQueue κ P T B :=
  if elm.2.isEmpty then Q
  else
    match alistGet Q.q elm.1 with
    | some _ =>
      ⟨Q.q.map fun ke =>
        if ke.1 = elm.1 then (ke.1, ke.2.mergeInto ext elm.2) else ke⟩
    | none => ⟨elm :: Q.q⟩

/-- `KeyedQueue.deque` (lines 418–422): pop the oldest element (tail of the
deque) and drop its key from the dedup index; popping an empty deque raises
`IndexError`. -/
def deque {κ P T B : Type} (Q : KeyedQueue κ P T B) :
    Except String ((κ × DataInput P T B) × KeyedQueue κ P T B) :=
  match Q.q.getLast? with
  | none => .error "pop from an empty deque"
  | some elm => .ok (elm, ⟨Q.q.dropLast⟩)

/-- `KeyedQueue.__len__`. -/
def size {κ P T B : Type} (Q : KeyedQueue κ P T B) : Nat := Q.q.length

end KeyedQueue

theorem alistGet_eq_none_iff {P B : Type} [DecidableEq P]
    (l : List (P × B)) (k : P) : alistGet l k = none ↔ k ∉ keysOf l := by
  induction l with
  | nil => simp [alistGet, keysOf]
  | cons a t ih =>
    obtain ⟨k', v⟩ := a
    by_cases hk : k' = k
    · subst hk
      simp [alistGet, keysOf]
    · simp [alistGet, hk, keysOf, Ne.symm hk] at *
      exact ih

theorem dictMerge_of_disjoint {P B : Type} [DecidableEq P] (ext : B → B → B) :
    ∀ (incoming existing : List (P × B)),
      (keysOf incoming).Nodup →
      (∀ p ∈ keysOf incoming, p ∉ keysOf existing) →
      dictMerge ext existing incoming = existing ++ incoming
  | [], existing => by simp [dictMerge]
  | pb :: rest, existing => by
    intro hnd hdisj
    have hget : alistGet existing pb.1 = none :=
      (alistGet_eq_none_iff existing pb.1).mpr
        (hdisj pb.1 (by simp [keysOf]))
    have hnd' : (keysOf rest).Nodup := by
      simpa [keysOf] using hnd.of_cons
    have hdisj' : ∀ p ∈ keysOf rest, p ∉ keysOf (existing ++ [pb]) := by
      intro p hp
      have hp1 : p ∉ keysOf existing := hdisj p (by simp [keysOf] at hp ⊢; right; exact hp)
      have hp2 : p ≠ pb.1 := by
        simp only [keysOf, List.map_cons, List.nodup_cons] at hnd
        intro hcontra
        exact hnd.1 (hcontra ▸ hp)
      simp [keysOf] at hp1 ⊢
      exact ⟨hp1, hp2⟩
    have step : dictMerge ext existing (pb :: rest)
        = dictMerge ext (existing ++ [pb]) rest := by
      simp [dictMerge, hget]
    rw [step, dictMerge_of_disjoint ext rest (existing ++ [pb]) hnd' hdisj']
    simp

theorem keysOf_enque_map {κ P T B : Type} [DecidableEq κ] [DecidableEq P]
    [DecidableEq T] (ext : B → B → B) (l : List (κ × DataInput P T B))
    (k : κ) (i : DataInput P T B) :
    keysOf (l.map fun ke =>
        if ke.1 = k then (ke.1, ke.2.mergeInto ext i) else ke)
      = keysOf l := by
  simp only [keysOf, List.map_map]
  apply List.map_congr_left
  intro ke _
  by_cases h : ke.1 = k <;> simp [h]

/-- C2: enqueueing the same key twice (with non-empty inputs, the second
input's per-PCollection and per-timer-family keys disjoint from the first)
merges the second input into the existing entry in place at its queue
position, a single dequeue then yields the union of both payloads, and
`enque`/`deque` preserve the at-most-one-entry-per-key invariant. -/
theorem keyedQueue_enque_merges_same_key {κ P T B : Type} [DecidableEq κ]
    [DecidableEq P] [DecidableEq T] (ext : B → B → B)
    (Q : KeyedQueue κ P T B) (k : κ) (i1 i2 : DataInput P T B)
    (h1 : i1.isEmpty = false) (h2 : i2.isEmpty = false)
    (hk : alistGet Q.q k = none)
    (hnd : (keysOf i2.data).Nodup) (hndT : (keysOf i2.timers).Nodup)
    (hdisj : ∀ p ∈ keysOf i2.data, p ∉ keysOf i1.data)
    (hdisjT : ∀ t ∈ keysOf i2.timers, t ∉ keysOf i1.timers) :
    ((Q.enque ext (k, i1)).enque ext (k, i2)).q
        = (k, ⟨i1.data ++ i2.data, i1.timers ++ i2.timers⟩) :: Q.q ∧
    (Q.q = [] →
      ((Q.enque ext (k, i1)).enque ext (k, i2)).deque
        = .ok ((k, ⟨i1.data ++ i2.data, i1.timers ++ i2.timers⟩), ⟨[]⟩)) ∧
    (∀ (R : KeyedQueue κ P T B) (e : κ × DataInput P T B),
      (keysOf R.q).Nodup → (keysOf (R.enque ext e).q).Nodup) ∧
    (∀ (R : KeyedQueue κ P T B) x R2, R.deque = .ok (x, R2) →
      (keysOf R.q).Nodup → (keysOf R2.q).Nodup) := by
  have hq1 : (Q.enque ext (k, i1)).q = (k, i1) :: Q.q := by
    unfold KeyedQueue.enque
    rw [if_neg (by simp [h1]), hk]
  have hmerge : DataInput.mergeInto ext i1 i2
      = ⟨i1.data ++ i2.data, i1.timers ++ i2.timers⟩ := by
    unfold DataInput.mergeInto
    rw [dictMerge_of_disjoint ext i2.data i1.data hnd hdisj,
      dictMerge_of_disjoint ext i2.timers i1.timers hndT hdisjT]
  have hget1 : alistGet ((k, i1) :: Q.q) k = some i1 := by simp [alistGet]
  have hrest : Q.q.map (fun ke =>
      if ke.1 = k then (ke.1, ke.2.mergeInto ext i2) else ke) = Q.q := by
    conv_rhs => rw [← List.map_id Q.q]
    apply List.map_congr_left
    intro ke hke
    have hne : ke.1 ≠ k := by
      intro hcontra
      exact (alistGet_eq_none_iff Q.q k).mp hk
        (hcontra ▸ List.mem_map_of_mem Prod.fst hke)
    simp [hne]
  have hq2 : ((Q.enque ext (k, i1)).enque ext (k, i2)).q
      = (k, ⟨i1.data ++ i2.data, i1.timers ++ i2.timers⟩) :: Q.q := by
    set Q1 := Q.enque ext (k, i1) with hQ1
    simp only [KeyedQueue.enque, h2, Bool.false_eq_true, if_false, hq1,
      hget1, List.map_cons]
    simp [hrest, hmerge]
  refine ⟨hq2, ?_, ?_, ?_⟩
  · intro hq
    unfold KeyedQueue.deque
    rw [hq2, hq]
    rfl
  · intro R e hnodup
    unfold KeyedQueue.enque
    by_cases he : e.2.isEmpty = true
    · rw [if_pos he]
      exact hnodup
    · rw [if_neg he]
      rcases hg : alistGet R.q e.1 with _ | old
      · simp only []
        rw [keysOf, List.map_cons]
        exact List.Nodup.cons ((alistGet_eq_none_iff R.q e.1).mp hg) hnodup
      · simp only []
        rw [keysOf_enque_map]
        exact hnodup
  · intro R x R2 hde hnodup
    unfold KeyedQueue.deque at hde
    rcases hlast : R.q.getLast? with _ | elm
    · rw [hlast] at hde
      exact absurd hde (by simp)
    · rw [hlast] at hde
      have hR2 : R2 = ⟨R.q.dropLast⟩ :=
        (congrArg Prod.snd (Except.ok.inj hde)).symm
      rw [hR2]
      exact hnodup.sublist ((List.dropLast_sublist R.q).map Prod.fst)

/-- Witness for C2 at a concrete input: one key enqueued twice with
disjoint payloads on an empty queue. -/
theorem keyedQueue_enque_merges_same_key_witness :
    (((KeyedQueue.mk [] : KeyedQueue Nat Nat Nat Nat).enque (fun o _ => o)
        (0, ⟨[(1, 10)], [(5, 50)]⟩)).enque (fun o _ => o)
        (0, ⟨[(2, 20)], [(6, 60)]⟩)).q
        = [(0, ⟨[(1, 10), (2, 20)], [(5, 50), (6, 60)]⟩)] ∧
    (([] : List (Nat × DataInput Nat Nat Nat)) = [] →
      (((KeyedQueue.mk [] : KeyedQueue Nat Nat Nat Nat).enque (fun o _ => o)
          (0, ⟨[(1, 10)], [(5, 50)]⟩)).enque (fun o _ => o)
          (0, ⟨[(2, 20)], [(6, 60)]⟩)).deque
        = .ok ((0, ⟨[(1, 10), (2, 20)], [(5, 50), (6, 60)]⟩),
            ⟨[]⟩)) ∧
    (∀ (R : KeyedQueue Nat Nat Nat Nat) (e : Nat × DataInput Nat Nat Nat),
      (keysOf R.q).Nodup →
      (keysOf (R.enque (fun o _ => o) e).q).Nodup) ∧
    (∀ (R : KeyedQueue Nat Nat Nat Nat) x R2, R.deque = .ok (x, R2) →
      (keysOf R.q).Nodup → (keysOf R2.q).Nodup) :=
  keyedQueue_enque_merges_same_key (fun o _ => o) (KeyedQueue.mk []) 0
    ⟨[(1, 10)], [(5, 50)]⟩ ⟨[(2, 20)], [(6, 60)]⟩ (by decide) (by decide)
    (by decide) (by decide) (by decide) (by decide) (by decide)

/-- C9: enqueuing an input that carries no data is a no-op — the queue is
returned unchanged, so its contents and length are untouched and no entry
is created for the key. -/
theorem keyedQueue_enque_empty_noop {κ P T B : Type} [DecidableEq κ]
    [DecidableEq P] [DecidableEq T] (ext : B → B → B)
    (Q : KeyedQueue κ P T B) (k : κ) (i : DataInput P T B)
    (h : i.isEmpty = true) :
    Q.enque ext (k, i) = Q ∧ (Q.enque ext (k, i)).size = Q.size := by
  have hq : Q.enque ext (k, i) = Q := by
    unfold KeyedQueue.enque
    rw [if_pos h]
  exact ⟨hq, by rw [hq]⟩

/-- Witness for C9 at a concrete input. -/
theorem keyedQueue_enque_empty_noop_witness :
    (KeyedQueue.mk [(7, ⟨[(1, 10)], []⟩)] :
        KeyedQueue Nat Nat Nat Nat).enque (fun o _ => o) (0, ⟨[], []⟩)
      = KeyedQueue.mk [(7, ⟨[(1, 10)], []⟩)] ∧
    ((KeyedQueue.mk [(7, ⟨[(1, 10)], []⟩)] :
        KeyedQueue Nat Nat Nat Nat).enque (fun o _ => o) (0, ⟨[], []⟩)).size
      = (KeyedQueue.mk [(7, ⟨[(1, 10)], []⟩)] :
        KeyedQueue Nat Nat Nat Nat).size :=
  keyedQueue_enque_empty_noop (fun o _ => o)
    (KeyedQueue.mk [(7, ⟨[(1, 10)], []⟩)]) 0 ⟨[], []⟩ (by decide)

/-! ### Stage setup: `_enqueue_stage_initial_inputs` (lines 778–825) -/

/-- Modelled from the spec: `translations.IMPULSE_BUFFER`, the buffer-id
kind tag for impulse inputs (`translations.py` is not among the sources;
the spec lists `impulse` among the buffer-id kind tags).  Only its role as
a distinguished payload value matters here. -/
def IMPULSE_BUFFER : String := "impulse"

/-- Modelled from the spec: `apache_beam.utils.timestamp.MAX_TIMESTAMP`
(module not among the sources), the "wait for max representable timestamp"
sentinel key used for watermark-pending entries; per the spec it is the
maximum representable timestamp, modelled as the largest signed 64-bit
number of microseconds. -/
def MAX_TIMESTAMP : Int := 9223372036854775807

/-- The spec of a stage transform, as discriminated by
`_enqueue_stage_initial_inputs`: a DATA_INPUT with its buffer-id payload, a
DATA_OUTPUT, a ParDo (with the side-input tags of its payload), or any
other URN.  `σ` is the type of side-input tags. -/
inductive TransformSpec (σ : Type) where
  | dataInput (payload : String)
  | dataOutput
  | parDo (side_inputs : List σ)
  | other
  deriving DecidableEq, Repr

structure PTransform (σ : Type) where
  unique_name : String
  spec : TransformSpec σ
  deriving DecidableEq, Repr

structure Stage (σ : Type) where
  name : String
  transforms : List (PTransform σ)
  deriving DecidableEq, Repr

/-- `_ProcessingQueueManager` (lines 434–441): the three keyed queues.  The
buffer type is `ListBuffer ι` (the initial inputs built at setup are
`ListBuffer`s), keys are stage names for `ready_inputs` and
(stage name, timestamp) pairs for the pending queues. -/
structure ProcessingQueueManager (ι : Type) where
  time_pending_inputs : KeyedQueue (String × Int) String String (ListBuffer ι)
  watermark_pending_inputs :
    KeyedQueue (String × Int) String String (ListBuffer ι)
  ready_inputs : KeyedQueue String String String (ListBuffer ι)
  deriving Repr

/-- `_ProcessingQueueManager.__init__`: all three queues empty. -/
def ProcessingQueueManager.new {ι : Type} : ProcessingQueueManager ι :=
  ⟨⟨[]⟩, ⟨[]⟩, ⟨[]⟩⟩

/-- The buffer merge the queues use for `Buffer.extend` on the success
path (`ListBuffer.extend` on a non-cleared, non-read target appends the
source records). -/
def listBufferMerge {ι : Type} (b other : ListBuffer ι) : ListBuffer ι :=
  { b with inputs := b.inputs ++ other.inputs }

/-- The `data_input` dictionary built by the transform loop of
`_enqueue_stage_initial_inputs`: for every DATA_INPUT transform whose
payload is the impulse buffer id, a fresh `ListBuffer` holding the single
record `ENCODED_IMPULSE_VALUE` (modelled by the parameter `impulse`),
keyed by the transform name; non-impulse DATA_INPUTs and all other
transforms contribute nothing. -/
def stageInitialDataInput {σ ι : Type} (impulse : List ι) (stage : Stage σ) :
    List (String × ListBuffer ι) :=
  stage.transforms.foldl (fun acc t =>
    match t.spec with
    | .dataInput payload =>
      if payload = IMPULSE_BUFFER then
        acc ++ [(t.unique_name, ListBuffer.mk [impulse] none false)]
      else acc
    | _ => acc) []

/-- `ready_to_schedule` computation: a stage is not ready iff some ParDo
transform of it declares side inputs (lines 810–816). -/
def stageHasSideInputs {σ : Type} (stage : Stage σ) : Bool :=
  stage.transforms.any (fun t =>
    match t.spec with
    | .parDo side_inputs => !side_inputs.isEmpty
    | _ => false)

/-- `_enqueue_stage_initial_inputs` (lines 778–825), restricted to its
queue effect: build the stage's initial impulse `data_input`; if it is
non-empty and the stage has no side-input-consuming ParDo, enqueue
`(stage.name, DataInput(data_input, {}))` on the ready queue; if it is
non-empty and the stage has one, enqueue it on the watermark-pending queue
under the key `(stage.name, MAX_TIMESTAMP)`; otherwise leave the queues
untouched.  (The payload rewriting to live data-channel endpoints that the
same loop performs mutates only the transform protos, not the queues, and
is outside this model.) -/
def enqueueStageInitialInputs {σ ι : Type} (impulse : List ι)
    (queues : ProcessingQueueManager ι) (stage : Stage σ) :
    ProcessingQueueManager ι :=
  let data_input := stageInitialDataInput impulse stage
  if data_input.isEmpty = false ∧ stageHasSideInputs stage = false then
    let r := queues.ready_inputs.enque listBufferMerge
      (stage.name, ⟨data_input, []⟩)
    { queues with ready_inputs := r }
  else if data_input.isEmpty = false then
    let w := queues.watermark_pending_inputs.enque listBufferMerge
      ((stage.name, MAX_TIMESTAMP), ⟨data_input, []⟩)
    { queues with watermark_pending_inputs := w }
  else queues

/-- C5: at setup, a stage with a non-empty initial impulse input lands on
the ready queue when no transform declares side inputs, and on the
watermark-pending queue under the maximum-timestamp sentinel key when some
transform does; the other queues stay empty. -/
theorem enqueue_stage_initial_inputs_placement {σ ι : Type}
    (impulse : List ι) (stage : Stage σ)
    (hne : stageInitialDataInput impulse stage ≠ []) :
    (stageHasSideInputs stage = false →
      enqueueStageInitialInputs impulse ProcessingQueueManager.new stage
        = ⟨⟨[]⟩, ⟨[]⟩,
            ⟨[(stage.name, ⟨stageInitialDataInput impulse stage, []⟩)]⟩⟩) ∧
    (stageHasSideInputs stage = true →
      enqueueStageInitialInputs impulse ProcessingQueueManager.new stage
        = ⟨⟨[]⟩,
            ⟨[((stage.name, MAX_TIMESTAMP),
                ⟨stageInitialDataInput impulse stage, []⟩)]⟩,
            ⟨[]⟩⟩) := by
  have hemp : (stageInitialDataInput impulse stage).isEmpty = false := by
    rcases h : stageInitialDataInput impulse stage with _ | _
    · exact absurd h hne
    · rfl
  have hinput : (DataInput.mk (stageInitialDataInput impulse stage)
      ([] : List (String × ListBuffer ι))).isEmpty = false := by
    simp [DataInput.isEmpty, hemp]
  constructor
  · intro hside
    unfold enqueueStageInitialInputs
    rw [if_pos ⟨hemp, hside⟩]
    unfold ProcessingQueueManager.new
    simp only [KeyedQueue.enque, hinput, Bool.false_eq_true, if_false,
      alistGet]
  · intro hside
    unfold enqueueStageInitialInputs
    rw [if_neg (by simp [hside]), if_pos hemp]
    unfold ProcessingQueueManager.new
    simp only [KeyedQueue.enque, hinput, Bool.false_eq_true, if_false,
      alistGet]

/-- A concrete stage with only an impulse input (used by the C5 witness). -/
def stageA : Stage Nat :=
  ⟨"A", [⟨"readA", .dataInput IMPULSE_BUFFER⟩]⟩

/-- A concrete stage with an impulse input plus a side-input-consuming
ParDo (used by the C5 witness). -/
def stageB : Stage Nat :=
  ⟨"B", [⟨"readB", .dataInput IMPULSE_BUFFER⟩, ⟨"pardoB", .parDo [3]⟩]⟩

/-- Witness for C5 at concrete stages. -/
theorem enqueue_stage_initial_inputs_placement_witness :
    ((stageHasSideInputs stageA = false →
      enqueueStageInitialInputs [()] ProcessingQueueManager.new stageA
        = ⟨⟨[]⟩, ⟨[]⟩,
            ⟨[("A", ⟨stageInitialDataInput [()] stageA, []⟩)]⟩⟩) ∧
    (stageHasSideInputs stageA = true →
      enqueueStageInitialInputs [()] ProcessingQueueManager.new stageA
        = ⟨⟨[]⟩,
            ⟨[(("A", MAX_TIMESTAMP),
                ⟨stageInitialDataInput [()] stageA, []⟩)]⟩,
            ⟨[]⟩⟩)) ∧
    ((stageHasSideInputs stageB = false →
      enqueueStageInitialInputs [()] ProcessingQueueManager.new stageB
        = ⟨⟨[]⟩, ⟨[]⟩,
            ⟨[("B", ⟨stageInitialDataInput [()] stageB, []⟩)]⟩⟩) ∧
    (stageHasSideInputs stageB = true →
      enqueueStageInitialInputs [()] ProcessingQueueManager.new stageB
        = ⟨⟨[]⟩,
            ⟨[(("B", MAX_TIMESTAMP),
                ⟨stageInitialDataInput [()] stageB, []⟩)]⟩,
            ⟨[]⟩⟩)) :=
  ⟨enqueue_stage_initial_inputs_placement [()] stageA (by decide),
   enqueue_stage_initial_inputs_placement [()] stageB (by decide)⟩

/-! ### Safe windowing strategies (`execution.py` lines 886–910) -/

/-- `beam_runner_api_pb2.MergeStatus` values. -/
inductive MergeStatus where
  | UNSPECIFIED
  | NON_MERGING
  | NEEDS_MERGE
  | ALREADY_MERGED
  deriving DecidableEq, Repr

/-- The window-function field of a windowing strategy proto: a URN plus a
payload (byte strings modelled as `String`). -/
structure WindowFn where
  urn : String
  payload : String
  deriving DecidableEq, Repr

/-- The parts of `beam_runner_api_pb2.WindowingStrategy` that
`_make_safe_windowing_strategy` reads or rewrites. -/
structure WindowingStrategyProto where
  window_fn : WindowFn
  merge_status : MergeStatus
  window_coder_id : String
  deriving DecidableEq, Repr

/-- `GenericNonMergingWindowFn.URN` (line 343). -/
def GenericNonMergingWindowFn.URN : String := "internal-generic-non-merging"

/-- `GenericMergingWindowFn.URN` (line 449). -/
def GenericMergingWindowFn.URN : String := "internal-generic-merging"

/-- The `while safe_id in self.pipeline_components.windowing_strategies:
safe_id += '_'` collision loop, run with fuel `keys.length + 1` — enough,
since every attempt strictly lengthens the candidate so at most
`keys.length` attempts can collide. -/
def freshIdAux (keys : List String) : Nat → String → String
  | 0, s => s
  | fuel + 1, s => if s ∈ keys then freshIdAux keys fuel (s ++ "_") else s

def freshId (keys : List String) (s : String) : String :=
  freshIdAux keys (keys.length + 1) s

theorem countP_lt_of_mem {γ : Type} (p q : γ → Bool) :
    ∀ l : List γ, (∀ y ∈ l, p y = true → q y = true) →
      ∀ x ∈ l, q x = true → p x = false → l.countP p < l.countP q
  | [], _, x, hx, _, _ => absurd hx (List.not_mem_nil x)
  | a :: t, himp, x, hx, hqx, hpx => by
    rcases List.mem_cons.mp hx with h | h
    · subst h
      rw [List.countP_cons, List.countP_cons, hpx, hqx]
      simp only [Bool.false_eq_true, if_false, if_true]
      have hle : t.countP p ≤ t.countP q :=
        List.countP_mono_left (fun y hy => himp y (List.mem_cons_of_mem _ hy))
      omega
    · have hlt : t.countP p < t.countP q :=
        countP_lt_of_mem p q t
          (fun y hy => himp y (List.mem_cons_of_mem a hy)) x h hqx hpx
      rw [List.countP_cons, List.countP_cons]
      by_cases hpa : p a = true
      · rw [hpa, himp a (List.mem_cons_self a t) hpa]
        omega
      · rw [Bool.not_eq_true] at hpa
        rw [hpa]
        by_cases hqa : q a = true <;> simp [hqa] <;> omega

theorem freshIdAux_not_mem (keys : List String) :
    ∀ (fuel : Nat) (s : String),
      keys.countP (fun k => decide (s.length ≤ k.length)) < fuel →
      freshIdAux keys fuel s ∉ keys
  | 0, s, hfuel => absurd hfuel (by omega)
  | fuel + 1, s, hfuel => by
    unfold freshIdAux
    by_cases hmem : s ∈ keys
    · rw [if_pos hmem]
      apply freshIdAux_not_mem keys fuel (s ++ "_")
      have hone : ("_" : String).length = 1 := rfl
      have hlen : (s ++ "_").length = s.length + 1 := by
        rw [String.length_append, hone]
      have hlt : keys.countP (fun k => decide ((s ++ "_").length ≤ k.length))
          < keys.countP (fun k => decide (s.length ≤ k.length)) := by
        apply countP_lt_of_mem _ _ keys ?_ s hmem (by simp) (by simp [hlen])
        intro y _ hy
        simp only [hlen, decide_eq_true_eq] at hy ⊢
        omega
      omega
    · rw [if_neg hmem]
      exact hmem

theorem freshId_not_mem (keys : List String) (s : String) :
    freshId keys s ∉ keys := by
  apply freshIdAux_not_mem
  have h := List.countP_le_length
    (p := fun k => decide (s.length ≤ k.length)) (l := keys)
  omega

theorem mem_keysOf_of_alistGet_some {P B : Type} [DecidableEq P]
    {l : List (P × B)} {k : P} {v : B} (h : alistGet l k = some v) :
    k ∈ keysOf l := by
  by_contra hnm
  have hnone := (alistGet_eq_none_iff l k).mpr hnm
  rw [h] at hnone
  exact Option.noConfusion hnone

/-- `_make_safe_windowing_strategy` (lines 886–910).  `safeList` stands for
the runner's `SAFE_WINDOW_FNS` (line 92: the registered window-fn URNs
minus the pickled one — a process-wide registry, hence a parameter), and
`mergingPayload` for the pickled fresh handle id that
`GenericMergingWindowFn(self, proto).payload()` yields (a fresh uuid, hence
a parameter).  A strategy whose window-fn URN is known safe is returned
unchanged (and nothing is registered); otherwise a collision-free
`safe_id` is generated (`id + '_safe'` plus `'_'`s) and a copy of the
proto rewritten to one of the two generic adapters is registered under it:
non-merging strategies get `GenericNonMergingWindowFn.URN` with the
utf-8-encoded window coder id as payload, merging ones get
`GenericMergingWindowFn.URN`; any other merge status raises
`NotImplementedError`.  Returns the safe id and the registered proto, if
any. -/
def make_safe_windowing_strategy
    (strategies : List (String × WindowingStrategyProto))
    (safeList : List String) (mergingPayload : String) (id : String) :
    Except String (String × Option WindowingStrategyProto) :=
  match alistGet strategies id with
  | none => .error "KeyError"
  | some proto =>
    if proto.window_fn.urn ∈ safeList then .ok (id, none)
    else
      let safe_id := freshId (keysOf strategies) (id ++ "_safe")
      match proto.merge_status with
      | .NON_MERGING =>
        .ok (safe_id, some { proto with
          window_fn := ⟨GenericNonMergingWindowFn.URN, proto.window_coder_id⟩ })
      | .NEEDS_MERGE =>
        .ok (safe_id, some { proto with
          window_fn := ⟨GenericMergingWindowFn.URN, mergingPayload⟩ })
      | _ => .error "Unsupported merging strategy"

/-- `self.safe_windowing_strategies` (lines 719–722): the memo dictionary
mapping every windowing-strategy id to its canonicalized result, computed
once at context construction; later lookups only read this dict. -/
def safe_windowing_strategies
    (strategies : List (String × WindowingStrategyProto))
    (safeList : List String) (mergingPayload : String) :
    List (String × Except String (String × Option WindowingStrategyProto)) :=
  strategies.map (fun kv =>
    (kv.1, make_safe_windowing_strategy strategies safeList mergingPayload kv.1))

theorem alistGet_map_self {P B C : Type} [DecidableEq P] (f : P → C) :
    ∀ (l : List (P × B)) (k : P) (r : C),
      alistGet (l.map fun kv => (kv.1, f kv.1)) k = some r → r = f k
  | [], k, r => by simp [alistGet]
  | (k', v) :: t, k, r => by
    intro he
    rw [List.map_cons] at he
    unfold alistGet at he
    by_cases h : k' = k
    · subst h
      rw [if_pos rfl] at he
      exact (Option.some.inj he).symm
    · rw [if_neg h] at he
      exact alistGet_map_self f t k r he

/-- C7: the safe-strategy canonicalizer returns an id unchanged when its
window-function URN is in the known-safe set; otherwise it returns a
distinct safe id — not colliding with any existing strategy id, in
particular different from the input id — whose strategy references one of
the two generic adapters; and every lookup in the memo dictionary returns
exactly the canonicalizer's value for that id, so repeated lookups for the
same input id return the same safe id. -/
theorem make_safe_windowing_strategy_spec
    (strategies : List (String × WindowingStrategyProto))
    (safeList : List String) (mergingPayload : String) (id : String)
    (proto : WindowingStrategyProto)
    (hlook : alistGet strategies id = some proto) :
    (proto.window_fn.urn ∈ safeList →
      make_safe_windowing_strategy strategies safeList mergingPayload id
        = .ok (id, none)) ∧
    (proto.window_fn.urn ∉ safeList →
      (proto.merge_status = .NON_MERGING ∨
        proto.merge_status = .NEEDS_MERGE) →
      ∃ proto2,
        make_safe_windowing_strategy strategies safeList mergingPayload id
          = .ok (freshId (keysOf strategies) (id ++ "_safe"), some proto2) ∧
        freshId (keysOf strategies) (id ++ "_safe") ∉ keysOf strategies ∧
        freshId (keysOf strategies) (id ++ "_safe") ≠ id ∧
        (proto2.window_fn.urn = GenericNonMergingWindowFn.URN ∨
          proto2.window_fn.urn = GenericMergingWindowFn.URN)) ∧
    (∀ r, alistGet
        (safe_windowing_strategies strategies safeList mergingPayload) id
          = some r →
      r = make_safe_windowing_strategy strategies safeList mergingPayload id) := by
  have hid : id ∈ keysOf strategies := mem_keysOf_of_alistGet_some hlook
  have hfresh : freshId (keysOf strategies) (id ++ "_safe") ∉ keysOf strategies :=
    freshId_not_mem (keysOf strategies) (id ++ "_safe")
  have hne : freshId (keysOf strategies) (id ++ "_safe") ≠ id := by
    intro hcontra
    rw [hcontra] at hfresh
    exact hfresh hid
  refine ⟨?_, ?_, ?_⟩
  · intro hin
    unfold make_safe_windowing_strategy
    rw [hlook]
    simp only [if_pos hin]
  · intro hout hstatus
    unfold make_safe_windowing_strategy
    rw [hlook]
    simp only [if_neg hout]
    rcases hstatus with hs | hs
    · rw [hs]
      exact ⟨_, rfl, hfresh, hne, Or.inl rfl⟩
    · rw [hs]
      exact ⟨_, rfl, hfresh, hne, Or.inr rfl⟩
  · intro r hr
    exact alistGet_map_self _ strategies id r hr

/-- Witness for C7 at a concrete input: a one-strategy registry whose
window function is not in the safe set. -/
theorem make_safe_windowing_strategy_spec_witness :
    ((WindowingStrategyProto.mk ⟨"urnX", "p"⟩ .NON_MERGING
        "coder1").window_fn.urn ∈ ["beam:window_fn:global_windows:v1"] →
      make_safe_windowing_strategy
          [("w", ⟨⟨"urnX", "p"⟩, .NON_MERGING, "coder1"⟩)]
          ["beam:window_fn:global_windows:v1"] "handle" "w"
        = .ok ("w", none)) ∧
    ((WindowingStrategyProto.mk ⟨"urnX", "p"⟩ .NON_MERGING
        "coder1").window_fn.urn ∉ ["beam:window_fn:global_windows:v1"] →
      ((WindowingStrategyProto.mk ⟨"urnX", "p"⟩ .NON_MERGING
          "coder1").merge_status = .NON_MERGING ∨
        (WindowingStrategyProto.mk ⟨"urnX", "p"⟩ .NON_MERGING
          "coder1").merge_status = .NEEDS_MERGE) →
      ∃ proto2,
        make_safe_windowing_strategy
            [("w", ⟨⟨"urnX", "p"⟩, .NON_MERGING, "coder1"⟩)]
            ["beam:window_fn:global_windows:v1"] "handle" "w"
          = .ok (freshId
              (keysOf [("w", (⟨⟨"urnX", "p"⟩, .NON_MERGING, "coder1"⟩ :
                WindowingStrategyProto))]) ("w" ++ "_safe"), some proto2) ∧
        freshId (keysOf [("w", (⟨⟨"urnX", "p"⟩, .NON_MERGING, "coder1"⟩ :
            WindowingStrategyProto))]) ("w" ++ "_safe")
          ∉ keysOf [("w", (⟨⟨"urnX", "p"⟩, .NON_MERGING, "coder1"⟩ :
            WindowingStrategyProto))] ∧
        freshId (keysOf [("w", (⟨⟨"urnX", "p"⟩, .NON_MERGING, "coder1"⟩ :
            WindowingStrategyProto))]) ("w" ++ "_safe") ≠ "w" ∧
        (proto2.window_fn.urn = GenericNonMergingWindowFn.URN ∨
          proto2.window_fn.urn = GenericMergingWindowFn.URN)) ∧
    (∀ r, alistGet
        (safe_windowing_strategies
          [("w", ⟨⟨"urnX", "p"⟩, .NON_MERGING, "coder1"⟩)]
          ["beam:window_fn:global_windows:v1"] "handle") "w" = some r →
      r = make_safe_windowing_strategy
          [("w", ⟨⟨"urnX", "p"⟩, .NON_MERGING, "coder1"⟩)]
          ["beam:window_fn:global_windows:v1"] "handle" "w") :=
  make_safe_windowing_strategy_spec
    [("w", ⟨⟨"urnX", "p"⟩, .NON_MERGING, "coder1"⟩)]
    ["beam:window_fn:global_windows:v1"] "handle" "w"
    ⟨⟨"urnX", "p"⟩, .NON_MERGING, "coder1"⟩ (by decide)

end BeamExec
